import Mathlib

/-!
Verification development for the TOC (table of contents) extraction engine
of `st.py`: Devanagari script filtering (`strip_hindi_chars`), the line-entry
parser (`parse_toc`), and the candidate-page detector
(`find_toc_page_indices`).

The Python code is embedded shallowly over `List Char` / `String`.
Python regular expressions are modelled by executable functions whose
behaviour coincides with the source patterns on the texts in scope
(Latin script plus Devanagari, per the project's stated scope):

* character class `\d` is modelled as ASCII digits together with the
  Devanagari digit block U+0966-U+096F (the only decimal digits of the
  two scripts in scope);
* `\s` and `str.strip()` are modelled on the ASCII whitespace characters
  (space, tab, newline, carriage return, vertical tab, form feed);
* `str.lower()` is modelled as ASCII lowercasing.
-/

/-- Characters of the Devanagari Unicode block U+0900-U+097F, the class
removed by `strip_hindi_chars` (source regex `[ऀ-ॿ]+`). -/
def isDevanagari (c : Char) : Bool :=
  0x900 ≤ c.toNat && c.toNat ≤ 0x97F

/-- Whitespace as used by Python `str.strip()` and the regex class `\s`
(ASCII part, sufficient for the texts in scope). -/
def isPySpace (c : Char) : Bool :=
  c.toNat = 32 || c.toNat = 9 || c.toNat = 10 || c.toNat = 13 ||
  c.toNat = 11 || c.toNat = 12

/-- Decimal digits for the regex class `\d`: ASCII digits plus the
Devanagari digits U+0966-U+096F (the decimal digits of the scripts in
scope). -/
def isPyDigit (c : Char) : Bool :=
  (48 ≤ c.toNat && c.toNat ≤ 57) || (0x966 ≤ c.toNat && c.toNat ≤ 0x96F)

/-- ASCII digit `0`-`9`, i.e. the class `[0-9]` of the Entry invariant. -/
def isAsciiDigit (c : Char) : Bool :=
  48 ≤ c.toNat && c.toNat ≤ 57

/-- The separator class `[\s\.\-]` of the primary pattern in `parse_toc`. -/
def isSepChar (c : Char) : Bool :=
  isPySpace c || c = '.' || c = '-'

/-- Python `str.lower()`, modelled on ASCII letters. -/
def toLowerPy (c : Char) : Char :=
  if 65 ≤ c.toNat && c.toNat ≤ 90 then Char.ofNat (c.toNat + 32) else c

/-- Python `text.split('\n')`: split into the newline-separated fragments
(keeping empty fragments, as Python does). -/
def splitNl (cs : List Char) : List (List Char) :=
  match cs with
  | [] => [[]]
  | c :: rest =>
    match splitNl rest with
    | [] => [[]]
    | r :: rs => if c = '\n' then [] :: r :: rs else (c :: r) :: rs

/-- Drop leading `isPySpace` characters (left half of `str.strip()`). -/
def lstripSp (l : List Char) : List Char :=
  l.dropWhile isPySpace

/-- Drop trailing `isPySpace` characters (right half of `str.strip()`). -/
def rstripSp (l : List Char) : List Char :=
  (l.reverse.dropWhile isPySpace).reverse

/-- Python `str.strip()`. -/
def pyStrip (l : List Char) : List Char :=
  rstripSp (lstripSp l)

/-- Core of `strip_hindi_chars`: `re.sub(r"[ऀ-ॿ]+", "", text)`
removes every Devanagari character. -/
def stripHindi (l : List Char) : List Char :=
  l.filter (fun c => !isDevanagari c)

/-- Source `strip_hindi_chars` (st.py lines 47-52). -/
def strip_hindi_chars (s : String) : String :=
  String.mk (stripHindi s.data)

/-- Source `re.search(r'\d+\s*$', cleaned)`: true iff after removing
trailing whitespace the text ends in at least one digit. -/
def endsDigitRun (cs : List Char) : Bool :=
  match cs.reverse.dropWhile isPySpace with
  | [] => false
  | c :: _ => isPyDigit c

/-- Python `" ".join(lines)`. -/
def joinSpace : List (List Char) → List Char
  | [] => []
  | [l] => l
  | l :: l2 :: ls => l ++ ' ' :: joinSpace (l2 :: ls)

/-- The skip-term list of `parse_toc` (st.py line 154), in source order. -/
def skip_terms : List String :=
  [("table of contents"), ("contents"), ("page"), ("toc")]

/-- Source check `any(term in lower_text for term in skip_terms)` where
`lower_text = full_text.lower()`: some skip-term occurs as a substring of
the lower-cased candidate text. -/
def hasSkipTerm (full : List Char) : Bool :=
  skip_terms.any (fun t => decide (t.data <:+: full.map toLowerPy))

/-- Tail of the primary pattern `[\s\.\-]+\s*(\d+)\s*$` anchored at the
start of `cs`: a nonempty separator run, then the digit group, then
optional whitespace to the end.  Since the separator class and `\s` are
disjoint from `\d`, the Python engine's match at a fixed position is this
deterministic scan. -/
def tailPrimary (cs : List Char) : Option (List Char) :=
  let sep := cs.takeWhile isSepChar
  let rest := cs.dropWhile isSepChar
  let digs := rest.takeWhile isPyDigit
  let rest2 := rest.dropWhile isPyDigit
  if sep = [] then none
  else if digs = [] then none
  else if rest2.all isPySpace then some digs else none

/-- Tail of the fallback pattern `(\d+)\s*$` anchored at the start of
`cs`: the digit group, then optional whitespace to the end. -/
def tailFallback (cs : List Char) : Option (List Char) :=
  let digs := cs.takeWhile isPyDigit
  let rest2 := cs.dropWhile isPyDigit
  if digs = [] then none
  else if rest2.all isPySpace then some digs else none

/-- The lazy group `^(.*?)` of both patterns: try the tail pattern at each
position from the left (shortest group 1 wins, as Python's non-greedy `.*?`
does); `.` does not match a newline, so the scan stops at `'\n'`.
Returns (group 1, digit group). -/
def lazyScan (tm : List Char → Option (List Char)) (acc : List Char) :
    List Char → Option (List Char × List Char)
  | [] => none
  | c :: cs =>
    match tm (c :: cs) with
    | some d => some (acc.reverse, d)
    | none => if c = '\n' then none else lazyScan tm (c :: acc) cs

/-- Source `re.match` cascade of `parse_toc` (st.py lines 180-183): the
primary pattern `^(.*?)[\s\.\-]+\s*(\d+)\s*$` first, the fallback
`^(.*?)(\d+)\s*$` only if the primary fails. -/
def matchGroups (cs : List Char) : Option (List Char × List Char) :=
  match lazyScan tailPrimary [] cs with
  | some r => some r
  | none => lazyScan tailFallback [] cs

/-- A structured TOC entry: the dict `{"chapter": ..., "page": ...}`. -/
structure Entry where
  chapter : String
  page : String
  deriving DecidableEq, Repr

/-- Build the emitted entry from the matched groups:
`chapter = m.group(1).strip()`, `page_no = m.group(2).strip()`. -/
def mkEntry (g : List Char × List Char) : Entry :=
  { chapter := String.mk (pyStrip g.1), page := String.mk (pyStrip g.2) }

/-- Emission for one digit-terminated candidate text: skip-term check
first (st.py lines 175-177), then the pattern cascade. -/
def emitCandidate (full : List Char) : Option Entry :=
  if hasSkipTerm full then none else (matchGroups full).map mkEntry

/-- One iteration of the `parse_toc` loop (st.py lines 157-191) on the
buffer `current_entry_lines` and one raw line: returns the new buffer and
the entry emitted by this line, if any. -/
def parseStep (buf : List (List Char)) (raw : List Char) :
    List (List Char) × Option Entry :=
  let line := pyStrip raw
  if line = [] then (buf, none)
  else
    let cleaned := stripHindi line
    if endsDigitRun cleaned then
      let full := if buf = [] then cleaned
                  else joinSpace buf ++ (' ' :: cleaned)
      ([], emitCandidate full)
    else (buf ++ [cleaned], none)

/-- The `parse_toc` loop over the split lines; a buffer left over at the
end of input is discarded.  The step's optional entry contributes zero or
one entries, in line order. -/
def parseLines (buf : List (List Char)) : List (List Char) → List Entry
  | [] => []
  | raw :: rest =>
    (parseStep buf raw).2.toList ++ parseLines (parseStep buf raw).1 rest

/-- Source `parse_toc` (st.py lines 145-193). -/
def parse_toc (text : String) : List Entry :=
  parseLines [] (splitNl text.data)

/-- Source `find_toc_page_indices` (st.py lines 196-247).  The document is
abstracted as the result of opening it: `Except.error` when reading the
document structure (page count, pages) fails, otherwise the per-page text
as delivered by PyPDF2/OCR (a page whose text retrieval failed contributes
an empty string, st.py lines 219-232).  The Python function wraps its whole
body in `try ... except Exception: st.error(...); return []`, so a document
level failure yields the empty index list, not an exception. -/
def find_toc_page_indices (doc : Except String (List String))
    (max_search_pages : Nat) : List Nat :=
  match doc with
  | Except.error _ => []
  | Except.ok pages =>
    (List.range (min pages.length max_search_pages)).filter (fun i =>
      let raw := pages.getD i ("")
      decide (("contents").data <:+: raw.data.map toLowerPy) &&
      decide (2 ≤ (parse_toc raw).length))

/-- Modelled from the spec: section 7's Fatal-extraction rule, under which
a failure to obtain the document's structural metadata is propagated to
the caller as an extraction error instead of being swallowed.  The
successful branch delegates to the source behaviour. -/
def find_toc_page_indices_spec (doc : Except String (List String))
    (max_search_pages : Nat) : Except String (List Nat) :=
  match doc with
  | Except.error e => Except.error e
  | Except.ok pages =>
    Except.ok (find_toc_page_indices (Except.ok pages) max_search_pages)

/-- The keyword list asserted by the candidate-page claim (spec section
4.4 step 2); the source checks only the substring `"contents"`. -/
def claimKeywords : List String :=
  [("contents"), ("table of contents"), ("foreword"), ("preface")]

/-- A page text that contains the claimed keyword `"foreword"` (but not
`"contents"`) and parses to two entries. -/
def fwPage : String :=
  ("Foreword\nChapter One . 1\nChapter Two . 2")

/-! General-purpose lemmas about the building blocks. -/

theorem dropWhile_self_idem {α : Type} (p : α → Bool) (l : List α) :
    List.dropWhile p (List.dropWhile p l) = List.dropWhile p l := by
  induction l with
  | nil => rfl
  | cons c cs ih =>
    by_cases hp : p c = true
    · simp [List.dropWhile_cons, hp, ih]
    · simp [List.dropWhile_cons, hp]

theorem dropWhile_eq_self_of_none {α : Type} {p : α → Bool} {l : List α}
    (h : ∀ c ∈ l, p c = false) : List.dropWhile p l = l := by
  cases l with
  | nil => rfl
  | cons c cs => simp [List.dropWhile_cons, h c (List.mem_cons_self c cs)]

theorem head_false_of_dropWhile_self {α : Type} {p : α → Bool} {c : α}
    {cs : List α} (h : List.dropWhile p (c :: cs) = c :: cs) : p c = false := by
  by_cases hp : p c = true
  · rw [List.dropWhile_cons, if_pos hp] at h
    have hlen : (List.dropWhile p cs).length ≤ cs.length :=
      (List.dropWhile_suffix p).length_le
    rw [h] at hlen
    simp at hlen
  · simpa using hp

theorem rstripSp_isPre (l : List Char) : rstripSp l <+: l := by
  have h : List.dropWhile isPySpace l.reverse <:+ l.reverse :=
    List.dropWhile_suffix isPySpace
  have h2 : (List.dropWhile isPySpace l.reverse).reverse <+: l.reverse.reverse :=
    List.reverse_prefix.mpr h
  simpa [rstripSp] using h2

theorem rstripSp_self_idem (l : List Char) : rstripSp (rstripSp l) = rstripSp l := by
  unfold rstripSp
  rw [List.reverse_reverse, dropWhile_self_idem]

theorem lstripSp_of_lstripped {l : List Char} (h : lstripSp l = l) :
    lstripSp (rstripSp l) = rstripSp l := by
  cases hr : rstripSp l with
  | nil => rfl
  | cons c cs =>
    have hpre : rstripSp l <+: l := rstripSp_isPre l
    rw [hr] at hpre
    obtain ⟨t, ht⟩ := hpre
    have hself : List.dropWhile isPySpace (c :: (cs ++ t)) = c :: (cs ++ t) := by
      have h2 := h
      unfold lstripSp at h2
      rw [← ht] at h2
      simpa using h2
    have hc : isPySpace c = false := head_false_of_dropWhile_self hself
    simp [lstripSp, List.dropWhile_cons, hc]

theorem pyStrip_idem (l : List Char) : pyStrip (pyStrip l) = pyStrip l := by
  unfold pyStrip
  have hA : lstripSp (lstripSp l) = lstripSp l := dropWhile_self_idem _ _
  rw [lstripSp_of_lstripped hA, rstripSp_self_idem]

theorem pyStrip_isSub (l : List Char) : pyStrip l <:+: l := by
  have h1 : pyStrip l <+: lstripSp l := rstripSp_isPre _
  have h2 : lstripSp l <:+ l := List.dropWhile_suffix isPySpace
  exact List.IsInfix.trans h1.isInfix h2.isInfix

theorem pyStrip_of_nonspace {l : List Char}
    (h : ∀ c ∈ l, isPySpace c = false) : pyStrip l = l := by
  unfold pyStrip lstripSp rstripSp
  rw [dropWhile_eq_self_of_none h]
  rw [dropWhile_eq_self_of_none (fun c hc => h c (List.mem_reverse.mp hc))]
  exact List.reverse_reverse l

theorem map_isSub {α β : Type} {f : α → β} {l₁ l₂ : List α}
    (h : l₁ <:+: l₂) : l₁.map f <:+: l₂.map f := by
  obtain ⟨s, t, rfl⟩ := h
  exact ⟨s.map f, t.map f, by simp⟩

theorem hasSkipTerm_of_term {t : String} {full : List Char}
    (ht : t ∈ skip_terms) (h : t.data <:+: full.map toLowerPy) :
    hasSkipTerm full = true := by
  unfold hasSkipTerm
  exact List.any_eq_true.mpr ⟨t, ht, decide_eq_true h⟩

theorem tailPrimary_spec {cs d : List Char} (h : tailPrimary cs = some d) :
    ∃ sep trail, cs = sep ++ d ++ trail ∧ sep ≠ [] ∧ d ≠ [] ∧
      (∀ c ∈ d, isPyDigit c = true) ∧ (∀ c ∈ trail, isPySpace c = true) := by
  simp only [tailPrimary] at h
  split at h
  · exact absurd h (by simp)
  · split at h
    · exact absurd h (by simp)
    · split at h
      · rename_i hsep hdig hsp
        obtain rfl : List.takeWhile isPyDigit (cs.dropWhile isSepChar) = d :=
          Option.some.inj h
        refine ⟨cs.takeWhile isSepChar,
          List.dropWhile isPyDigit (cs.dropWhile isSepChar), ?_, hsep, hdig,
          fun c hc => List.mem_takeWhile_imp hc, fun c hc => ?_⟩
        · rw [List.append_assoc, List.takeWhile_append_dropWhile,
            List.takeWhile_append_dropWhile]
        · exact (List.all_eq_true.mp hsp) c hc
      · exact absurd h (by simp)

theorem tailFallback_spec {cs d : List Char} (h : tailFallback cs = some d) :
    ∃ trail, cs = d ++ trail ∧ d ≠ [] ∧
      (∀ c ∈ d, isPyDigit c = true) ∧ (∀ c ∈ trail, isPySpace c = true) := by
  simp only [tailFallback] at h
  split at h
  · exact absurd h (by simp)
  · split at h
    · rename_i hdig hsp
      obtain rfl : List.takeWhile isPyDigit cs = d := Option.some.inj h
      refine ⟨List.dropWhile isPyDigit cs, ?_, hdig,
        fun c hc => List.mem_takeWhile_imp hc,
        fun c hc => (List.all_eq_true.mp hsp) c hc⟩
      rw [List.takeWhile_append_dropWhile]
    · exact absurd h (by simp)

theorem lazyScan_spec {tm : List Char → Option (List Char)} :
    ∀ {cs acc g d : List Char}, lazyScan tm acc cs = some (g, d) →
      ∃ q rest, g = acc.reverse ++ q ∧ cs = q ++ rest ∧ tm rest = some d := by
  intro cs
  induction cs with
  | nil => intro acc g d h; exact absurd h (by simp [lazyScan])
  | cons c cs ih =>
    intro acc g d h
    rw [lazyScan] at h
    split at h
    · rename_i d0 htm
      have h2 : (acc.reverse, d0) = (g, d) := Option.some.inj h
      have hfst : acc.reverse = g := congrArg Prod.fst h2
      have hsnd : d0 = d := congrArg Prod.snd h2
      subst hsnd
      exact ⟨[], c :: cs, by simp [hfst.symm], rfl, htm⟩
    · split at h
      · exact absurd h (by simp)
      · obtain ⟨q, rest, hg, hcs, hrest⟩ := ih h
        refine ⟨c :: q, rest, ?_, by simp [hcs], hrest⟩
        rw [hg, List.reverse_cons, List.append_assoc]
        rfl

theorem matchGroups_spec {full g d : List Char}
    (h : matchGroups full = some (g, d)) :
    (∃ pre trail, full = pre ++ d ++ trail) ∧ g <+: full ∧ d ≠ [] ∧
      (∀ c ∈ d, isPyDigit c = true) := by
  unfold matchGroups at h
  cases hp : lazyScan tailPrimary [] full with
  | some r =>
    rw [hp] at h
    obtain rfl : r = (g, d) := Option.some.inj h
    obtain ⟨q, rest, hg, hfull, htail⟩ := lazyScan_spec hp
    obtain ⟨sep, trail, hrest, _, hd, hdig, _⟩ := tailPrimary_spec htail
    simp only [List.reverse_nil, List.nil_append] at hg
    subst hg
    refine ⟨⟨g ++ sep, trail, ?_⟩, ⟨rest, hfull.symm⟩, hd, hdig⟩
    rw [hfull, hrest]
    simp [List.append_assoc]
  | none =>
    rw [hp] at h
    obtain ⟨q, rest, hg, hfull, htail⟩ := lazyScan_spec h
    obtain ⟨trail, hrest, hd, hdig, _⟩ := tailFallback_spec htail
    simp only [List.reverse_nil, List.nil_append] at hg
    subst hg
    refine ⟨⟨g, trail, ?_⟩, ⟨rest, hfull.symm⟩, hd, hdig⟩
    rw [hfull, hrest, List.append_assoc]

theorem mem_joinSpace {c : Char} :
    ∀ {ls : List (List Char)}, c ∈ joinSpace ls →
      c = ' ' ∨ ∃ l ∈ ls, c ∈ l := by
  intro ls
  induction ls with
  | nil => intro h; exact absurd h (by simp [joinSpace])
  | cons l ls ih =>
    intro h
    cases ls with
    | nil =>
      simp only [joinSpace] at h
      exact Or.inr ⟨l, by simp, h⟩
    | cons l2 ls2 =>
      rw [joinSpace] at h
      rcases List.mem_append.mp h with hl | hr
      · exact Or.inr ⟨l, by simp, hl⟩
      · rcases List.mem_cons.mp hr with hsp | hj
        · exact Or.inl hsp
        · rcases ih hj with hsp | ⟨l0, hl0, hc⟩
          · exact Or.inl hsp
          · exact Or.inr ⟨l0, by simp [hl0], hc⟩

theorem mem_stripHindi_not_dev {c : Char} {l : List Char}
    (h : c ∈ stripHindi l) : isDevanagari c = false := by
  have := (List.mem_filter.mp h).2
  simpa using this

theorem parseStep_skip {buf : List (List Char)} {raw : List Char}
    (h1 : pyStrip raw ≠ [])
    (h2 : endsDigitRun (stripHindi (pyStrip raw)) = true)
    (h3 : hasSkipTerm (if buf = [] then stripHindi (pyStrip raw)
        else joinSpace buf ++ (' ' :: stripHindi (pyStrip raw))) = true) :
    parseStep buf raw = ([], none) := by
  simp [parseStep, h1, h2, emitCandidate, h3]

theorem parseLines_emits :
    ∀ (lines buf : List (List Char)) (e : Entry), e ∈ parseLines buf lines →
      (∀ b ∈ buf, ∀ c ∈ b, isDevanagari c = false) →
      ∃ full g d, (∀ c ∈ full, isDevanagari c = false) ∧
        hasSkipTerm full = false ∧ matchGroups full = some (g, d) ∧
        e = mkEntry (g, d) := by
  intro lines
  induction lines with
  | nil => intro buf e h _; exact absurd h (by simp [parseLines])
  | cons raw rest ih =>
    intro buf e h hinv
    rw [parseLines] at h
    by_cases h0 : pyStrip raw = []
    · have hstep : parseStep buf raw = (buf, none) := by
        simp [parseStep, h0]
      rw [hstep] at h
      simp only [Option.toList_none, List.nil_append] at h
      exact ih buf e h hinv
    · by_cases h1 : endsDigitRun (stripHindi (pyStrip raw)) = true
      · have hstep : parseStep buf raw =
            ([], emitCandidate (if buf = [] then stripHindi (pyStrip raw)
              else joinSpace buf ++ (' ' :: stripHindi (pyStrip raw)))) := by
          simp [parseStep, h0, h1]
        rw [hstep] at h
        have hfulldev : ∀ c ∈ (if buf = [] then stripHindi (pyStrip raw)
            else joinSpace buf ++ (' ' :: stripHindi (pyStrip raw))),
            isDevanagari c = false := by
          intro c hc
          split at hc
          · exact mem_stripHindi_not_dev hc
          · rcases List.mem_append.mp hc with hj | hcons
            · rcases mem_joinSpace hj with rfl | ⟨b, hb, hcb⟩
              · decide
              · exact hinv b hb c hcb
            · rcases List.mem_cons.mp hcons with rfl | hc2
              · decide
              · exact mem_stripHindi_not_dev hc2
        generalize hgen : (if buf = [] then stripHindi (pyStrip raw)
            else joinSpace buf ++ (' ' :: stripHindi (pyStrip raw))) = full
            at h hfulldev
        cases hec : emitCandidate full with
        | none =>
          rw [hec] at h
          simp only [Option.toList_none, List.nil_append] at h
          exact ih [] e h (by simp)
        | some e0 =>
          rw [hec] at h
          simp only [Option.toList_some, List.singleton_append] at h
          rcases List.mem_cons.mp h with rfl | h2
          · unfold emitCandidate at hec
            split at hec
            · exact absurd hec (by simp)
            · rename_i hskip
              obtain ⟨gd, hmg, hmk⟩ := Option.map_eq_some'.mp hec
              refine ⟨full, gd.1, gd.2, hfulldev, ?_, ?_, hmk.symm⟩
              · simpa using hskip
              · simpa using hmg
          · exact ih [] e h2 (by simp)
      · have hstep : parseStep buf raw =
            (buf ++ [stripHindi (pyStrip raw)], none) := by
          simp [parseStep, h0, h1]
        rw [hstep] at h
        simp only [Option.toList_none, List.nil_append] at h
        refine ih _ e h ?_
        intro b hb c hc
        rcases List.mem_append.mp hb with hb1 | hb2
        · exact hinv b hb1 c hc
        · rcases List.mem_cons.mp hb2 with rfl | hb3
          · exact mem_stripHindi_not_dev hc
          · exact absurd hb3 (by simp)

theorem pyDigit_not_space {c : Char} (h : isPyDigit c = true) :
    isPySpace c = false := by
  simp only [isPyDigit, Bool.or_eq_true, Bool.and_eq_true,
    decide_eq_true_eq] at h
  simp only [isPySpace, Bool.or_eq_false_iff, decide_eq_false_iff_not]
  omega

theorem pyDigit_ascii_of_not_dev {c : Char} (h : isPyDigit c = true)
    (hdev : isDevanagari c = false) : isAsciiDigit c = true := by
  simp only [isPyDigit, Bool.or_eq_true, Bool.and_eq_true,
    decide_eq_true_eq] at h
  simp only [isDevanagari, Bool.and_eq_false_iff,
    decide_eq_false_iff_not, not_le] at hdev
  simp only [isAsciiDigit, Bool.and_eq_true, decide_eq_true_eq]
  omega

/-! Claim theorems. -/

/-- C1 counterexample: a page whose text contains the claimed keyword
`"foreword"` (and no `"contents"`) and parses to two entries is NOT
included in the detector's anchor list, refuting the claimed keyword set
`contents / table of contents / foreword / preface`. -/
theorem C1_counterexample :
    claimKeywords.any
        (fun kw => decide (kw.data <:+: (fwPage.data.map toLowerPy))) = true
    ∧ 2 ≤ (parse_toc fwPage).length
    ∧ find_toc_page_indices (Except.ok [fwPage]) 20 = [] :=
  ⟨by decide, by decide, by decide⟩

/-- C1 amended: the detector includes page index i iff
i < min(pageCount, maxSearchPages), the page's lower-cased text contains
the single configured keyword `"contents"` as a substring, and the
line-entry parser on that page's text alone yields at least 2 entries. -/
theorem C1_detector_membership :
    ∀ (pages : List String) (k i : Nat),
      i ∈ find_toc_page_indices (Except.ok pages) k ↔
        (i < min pages.length k
         ∧ ("contents").data <:+: ((pages.getD i ("")).data.map toLowerPy)
         ∧ 2 ≤ (parse_toc (pages.getD i (""))).length) := by
  intro pages k i
  simp [find_toc_page_indices, List.mem_filter, List.mem_range, and_assoc]

/-- C2: a line that does not end in a digit run is appended to the buffer
and emits nothing; a line that does end in a digit run forms one candidate
by space-joining the buffered lines with it in arrival order, emits at most
one entry, and clears the buffer; and the three lines of the buffering-law
example yield exactly the single entry
chapter = Introduction to Systems Design, page = 12. -/
theorem C2_multiline_buffering :
    (∀ (buf : List (List Char)) (raw : List Char) (rest : List (List Char)),
        pyStrip raw ≠ [] →
        endsDigitRun (stripHindi (pyStrip raw)) = false →
        parseLines buf (raw :: rest) =
          parseLines (buf ++ [stripHindi (pyStrip raw)]) rest)
    ∧ (∀ (buf : List (List Char)) (raw : List Char) (rest : List (List Char)),
        pyStrip raw ≠ [] →
        endsDigitRun (stripHindi (pyStrip raw)) = true →
        parseLines buf (raw :: rest) =
          (emitCandidate (if buf = [] then stripHindi (pyStrip raw)
              else joinSpace buf ++ (' ' :: stripHindi (pyStrip raw)))).toList
            ++ parseLines [] rest)
    ∧ (∀ full : List Char, (emitCandidate full).toList.length ≤ 1)
    ∧ parse_toc ("Introduction\nto Systems\nDesign .... 12")
        = [{ chapter := ("Introduction to Systems Design"), page := ("12") }] := by
  refine ⟨?_, ?_, ?_, by decide⟩
  · intro buf raw rest h1 h2
    rw [parseLines]
    have hstep : parseStep buf raw =
        (buf ++ [stripHindi (pyStrip raw)], none) := by
      simp [parseStep, h1, h2]
    rw [hstep]
    simp
  · intro buf raw rest h1 h2
    rw [parseLines]
    have hstep : parseStep buf raw =
        ([], emitCandidate (if buf = [] then stripHindi (pyStrip raw)
          else joinSpace buf ++ (' ' :: stripHindi (pyStrip raw)))) := by
      simp [parseStep, h1, h2]
    rw [hstep]
  · intro full
    cases emitCandidate full <;> simp

/-- C2 witness: the buffering branch applied at a concrete line. -/
theorem C2_multiline_buffering_holds :
    parseLines [] (("Intro").data :: []) =
      parseLines ([] ++ [stripHindi (pyStrip (("Intro").data))]) [] :=
  C2_multiline_buffering.1 [] (("Intro").data) [] (by decide) (by decide)

/-- C3 counterexample: the single line "12" is emitted as an entry whose
chapter is the empty string, refuting the claimed non-emptiness of the
chapter field. -/
theorem C3_counterexample :
    parse_toc ("12") = [{ chapter := (""), page := ("12") }] := by decide

/-- C3 amended: every emitted entry has a non-empty page consisting only
of ASCII digits, and a chapter with no leading or trailing whitespace that
is not equal to any skip-term (the chapter may be empty). -/
theorem C3_entry_invariant :
    ∀ (text : String) (e : Entry), e ∈ parse_toc text →
      e.page.data ≠ [] ∧ (∀ c ∈ e.page.data, isAsciiDigit c = true)
      ∧ pyStrip e.chapter.data = e.chapter.data
      ∧ ∀ t ∈ skip_terms, e.chapter ≠ t := by
  intro text e h
  obtain ⟨full, g, d, hdev, hskip, hmatch, he⟩ :=
    parseLines_emits _ [] e h (by simp)
  obtain ⟨⟨pre, trail, hfull⟩, hgpre, hd, hdig⟩ := matchGroups_spec hmatch
  have hdmem : ∀ c ∈ d, c ∈ full := by
    intro c hc
    rw [hfull]
    exact List.mem_append.mpr (Or.inl (List.mem_append.mpr (Or.inr hc)))
  have hpage : e.page.data = d := by
    rw [he]
    show pyStrip d = d
    exact pyStrip_of_nonspace (fun c hc => pyDigit_not_space (hdig c hc))
  have hchap : e.chapter.data = pyStrip g := by rw [he]; rfl
  refine ⟨by rw [hpage]; exact hd, ?_, ?_, ?_⟩
  · intro c hc
    rw [hpage] at hc
    exact pyDigit_ascii_of_not_dev (hdig c hc) (hdev c (hdmem c hc))
  · rw [hchap, pyStrip_idem]
  · intro t ht heq
    have htg : t.data = pyStrip g := by rw [← heq, hchap]
    have hlowall : ∀ t0 ∈ skip_terms, t0.data.map toLowerPy = t0.data := by
      decide
    have hlow : t.data.map toLowerPy = t.data := hlowall t ht
    have hsub : t.data <:+: full := by
      rw [htg]
      exact List.IsInfix.trans (pyStrip_isSub g) hgpre.isInfix
    have : hasSkipTerm full = true := by
      apply hasSkipTerm_of_term ht
      calc t.data = t.data.map toLowerPy := hlow.symm
        _ <:+: full.map toLowerPy := map_isSub hsub
    rw [hskip] at this
    exact Bool.false_ne_true this

/-- C3 witness: the amended invariant at a concrete parsed entry. -/
theorem C3_entry_invariant_holds :
    (("3") : String).data ≠ []
    ∧ (∀ c ∈ (("3") : String).data, isAsciiDigit c = true)
    ∧ pyStrip (("Intro") : String).data = (("Intro") : String).data
    ∧ ∀ t ∈ skip_terms, (("Intro") : String) ≠ t :=
  C3_entry_invariant ("Intro . 3")
    { chapter := ("Intro"), page := ("3") } (by decide)

/-- C4 counterexample: when opening the document fails, the detector
returns the ordinary empty index list (it catches the exception and
recovers), while the spec-modelled behaviour propagates the error; the
claimed propagation does not happen in the code. -/
theorem C4_counterexample :
    find_toc_page_indices (Except.error ("cannot read PDF")) 20 = []
    ∧ find_toc_page_indices_spec (Except.error ("cannot read PDF")) 20
        = Except.error ("cannot read PDF") :=
  ⟨rfl, rfl⟩

/-- C4 amended: a document-level failure during candidate-page detection
is swallowed inside the detector, which reports it to the UI and returns
an empty anchor list for every such failure; no extraction error reaches
the caller. -/
theorem C4_detection_error_swallowed :
    ∀ (e : String) (k : Nat),
      find_toc_page_indices (Except.error e) k = [] :=
  fun _ _ => rfl

/-- C5 counterexample: the two-character line "ab" is buffered, not
discarded, and ends up as the chapter of an emitted entry, refuting the
claimed minimum line length of 3 characters. -/
theorem C5_counterexample :
    parse_toc ("ab\n12") = [{ chapter := ("ab"), page := ("12") }] := by decide

/-- C5 amended: the parser discards exactly the lines that are empty
after trimming; such a line is neither buffered nor emitted and leaves
the parse state unchanged. -/
theorem C5_blank_line_discarded :
    ∀ (buf : List (List Char)) (raw : List Char) (rest : List (List Char)),
      pyStrip raw = [] → parseLines buf (raw :: rest) = parseLines buf rest := by
  intro buf raw rest h
  rw [parseLines]
  have hstep : parseStep buf raw = (buf, none) := by simp [parseStep, h]
  rw [hstep]
  simp

/-- C5 witness: a whitespace-only line is discarded. -/
theorem C5_blank_line_discarded_holds :
    parseLines [] (("   ").data :: []) = parseLines [] [] :=
  C5_blank_line_discarded [] (("   ").data) [] (by decide)

/-- C6: the line "Table of Contents" produces no entry on its own, and it
produces no entry in combination with any single later line either: the
joined candidate is re-tested against the skip-terms after joining and
discarded. -/
theorem C6_heading_never_emits :
    parse_toc ("Table of Contents") = []
    ∧ ∀ (l : List Char),
        parseLines [] [("Table of Contents").data, l] = [] := by
  refine ⟨by decide, ?_⟩
  intro l
  have h1 : parseStep [] (("Table of Contents").data) =
      ([("Table of Contents").data], none) := by decide
  rw [parseLines, h1]
  simp only [Option.toList_none, List.nil_append]
  by_cases hs : pyStrip l = []
  · have hstep : parseStep [("Table of Contents").data] l =
        ([("Table of Contents").data], none) := by simp [parseStep, hs]
    rw [parseLines, hstep]
    simp [parseLines]
  · by_cases hd : endsDigitRun (stripHindi (pyStrip l)) = true
    · have hskip : hasSkipTerm (("Table of Contents").data
          ++ (' ' :: stripHindi (pyStrip l))) = true := by
        apply hasSkipTerm_of_term
          (show (("table of contents") : String) ∈ skip_terms by simp [skip_terms])
        rw [List.map_append]
        have hlo : (("Table of Contents").data).map toLowerPy
            = ("table of contents").data := by decide
        rw [hlo]
        exact List.IsPrefix.isInfix ⟨_, rfl⟩
      have hstep : parseStep [("Table of Contents").data] l = ([], none) := by
        apply parseStep_skip hs hd
        rw [if_neg (by simp)]
        exact hskip
      rw [parseLines, hstep]
      simp [parseLines]
    · have hstep : parseStep [("Table of Contents").data] l =
          ([("Table of Contents").data, stripHindi (pyStrip l)], none) := by
        simp [parseStep, hs, hd]
      rw [parseLines, hstep]
      simp [parseLines]

/-- C7: the primary pattern is tried first and wins when it matches, the
fallback trailing-digit pattern is used exactly when the primary fails;
the example line yields chapter "Appendix A: Glossary" and page "205",
and a line with no separator before its digits is captured by the
fallback. -/
theorem C7_ordered_patterns :
    (∀ (cs : List Char) (r : List Char × List Char),
        lazyScan tailPrimary [] cs = some r → matchGroups cs = some r)
    ∧ (∀ cs : List Char,
        lazyScan tailPrimary [] cs = none →
        matchGroups cs = lazyScan tailFallback [] cs)
    ∧ parse_toc ("Appendix A: Glossary 205")
        = [{ chapter := ("Appendix A: Glossary"), page := ("205") }]
    ∧ parse_toc ("ab12") = [{ chapter := ("ab"), page := ("12") }] := by
  refine ⟨?_, ?_, by decide, by decide⟩
  · intro cs r h
    unfold matchGroups
    rw [h]
  · intro cs h
    unfold matchGroups
    rw [h]

/-- C7 witness: the fallback branch at a concrete line on which the
primary pattern fails. -/
theorem C7_ordered_patterns_holds :
    matchGroups (("ab12").data) = lazyScan tailFallback [] (("ab12").data) :=
  C7_ordered_patterns.2.1 (("ab12").data) (by decide)

/-- C8 counterexample: the code deletes the Devanagari digit U+0967
(one) instead of normalizing it to "1", refuting the claimed
digit-normalization operation. -/
theorem C8_counterexample :
    strip_hindi_chars (String.mk [Char.ofNat 0x967]) ≠ ("1")
    ∧ strip_hindi_chars (String.mk [Char.ofNat 0x967]) = String.mk [] := by
  refine ⟨by decide, by decide⟩

/-- C8 amended: the digit-handling operation `strip_hindi_chars` deletes
each Devanagari digit glyph (its singleton maps to the empty string) and
passes through every character outside the Devanagari block unchanged;
no normalization to Arabic digits is performed. -/
theorem C8_devanagari_digits_deleted :
    (∀ i : Nat, i < 10 →
      strip_hindi_chars (String.mk [Char.ofNat (0x966 + i)]) = String.mk [])
    ∧ (∀ c : Char, isDevanagari c = false →
      strip_hindi_chars (String.mk [c]) = String.mk [c]) := by
  constructor
  · intro i hi
    interval_cases i <;> decide
  · intro c h
    simp [strip_hindi_chars, stripHindi, h]

/-- C8 witness: the Devanagari digit one is deleted; an ASCII letter
passes through. -/
theorem C8_devanagari_digits_deleted_holds :
    strip_hindi_chars (String.mk [Char.ofNat (0x966 + 1)]) = String.mk [] :=
  C8_devanagari_digits_deleted.1 1 (by decide)

/-- C9: the Devanagari script filter is idempotent and total; it is a
homomorphism for concatenation, deletes exactly the characters of the
block U+0900-U+097F and leaves every other character unchanged. -/
theorem C9_script_filter_idempotent :
    (∀ s : String, strip_hindi_chars (strip_hindi_chars s) = strip_hindi_chars s)
    ∧ (∀ s t : String,
        strip_hindi_chars (s ++ t) = strip_hindi_chars s ++ strip_hindi_chars t)
    ∧ (∀ c : Char, isDevanagari c = true →
        strip_hindi_chars (String.mk [c]) = String.mk [])
    ∧ (∀ c : Char, isDevanagari c = false →
        strip_hindi_chars (String.mk [c]) = String.mk [c]) := by
  refine ⟨?_, ?_, ?_, ?_⟩
  · intro s
    cases s with
    | mk l => simp [strip_hindi_chars, stripHindi, List.filter_filter]
  · intro s t
    cases s with
    | mk a =>
      cases t with
      | mk b =>
        show String.mk (stripHindi (a ++ b))
            = String.mk (stripHindi a) ++ String.mk (stripHindi b)
        rw [show stripHindi (a ++ b) = stripHindi a ++ stripHindi b from by
          simp [stripHindi, List.filter_append]]
        rfl
  · intro c h
    simp [strip_hindi_chars, stripHindi, h]
  · intro c h
    simp [strip_hindi_chars, stripHindi, h]

/-- C9 witness: a Devanagari letter is removed, and removal is idempotent
at a concrete string. -/
theorem C9_script_filter_idempotent_holds :
    strip_hindi_chars (String.mk [Char.ofNat 0x915]) = String.mk [] :=
  C9_script_filter_idempotent.2.2.1 (Char.ofNat 0x915) (by decide)

/-- C10: skip-term rejection tests the entire joined candidate text,
lower-cased, by substring containment: any digit-terminated candidate
whose lower-cased full text contains a skip-term anywhere emits no entry
(and the buffer is still cleared); in particular a legitimate-looking
title containing "page" inside a word is rejected. -/
theorem C10_skip_substring_on_candidate :
    (∀ (buf : List (List Char)) (raw : List Char) (rest : List (List Char)),
        pyStrip raw ≠ [] →
        endsDigitRun (stripHindi (pyStrip raw)) = true →
        hasSkipTerm (if buf = [] then stripHindi (pyStrip raw)
            else joinSpace buf ++ (' ' :: stripHindi (pyStrip raw))) = true →
        parseLines buf (raw :: rest) = parseLines [] rest)
    ∧ parse_toc ("Homepage Setup 12") = [] := by
  refine ⟨?_, by decide⟩
  intro buf raw rest h1 h2 h3
  rw [parseLines]
  have hstep : parseStep buf raw = ([], none) := by
    simp [parseStep, h1, h2, emitCandidate, h3]
  rw [hstep]
  simp

/-- C10 witness: the joined candidate "Homepage Setup 12" contains the
skip-term "page" inside "Homepage" and emits nothing. -/
theorem C10_skip_substring_on_candidate_holds :
    parseLines [] [("Homepage Setup 12").data] = parseLines [] [] :=
  C10_skip_substring_on_candidate.1 [] (("Homepage Setup 12").data) []
    (by decide) (by decide) (by decide)
